import Mathlib

/-!
Shallow embedding of the rx-nostr core (src/index.ts together with the wire
types of nostr/primitive.ts) and proofs about its pool reconciliation,
subscription fan-out, publication and error handling logic.

JavaScript Map objects are embedded as insertion-ordered association lists
(unique keys), Set objects as insertion-ordered duplicate-free lists, and
every externally visible side effect (websocket send / start / stop /
dispose) is recorded in an explicit trace.
-/

namespace RxNostrModel

/-- Modelled from the spec: the ConnectionState enumeration lives in
packet.ts, which is not part of the sources at hand; the spec lists
initialized, starting, ongoing, reconnecting, error, terminated and
rejected, and index.ts additionally uses the string "not-started" as the
fallback state of getRelayState. -/
inductive ConnectionState
  | notStarted
  | initialized
  | starting
  | ongoing
  | reconnecting
  | error
  | terminated
  | rejected
deriving DecidableEq, Repr

namespace Nostr

/-- Event record of nostr/primitive.ts. -/
structure Event where
  id : String
  sig : String
  kind : Nat
  tags : List (List String)
  pubkey : String
  content : String
  created_at : Int
deriving DecidableEq, Repr

/-- Filter record of nostr/primitive.ts; the tag-name indexed properties
are collected into an association list. -/
structure Filter where
  ids : Option (List String) := none
  kinds : Option (List Nat) := none
  authors : Option (List String) := none
  since : Option Int := none
  untilTime : Option Int := none
  limit : Option Nat := none
  tagFilters : List (String × List String) := []
deriving DecidableEq, Repr

/-- Incoming relay-to-client message of nostr/primitive.ts. -/
inductive IncomingMessage
  | event (subId : String) (ev : Event)
  | eose (subId : String)
  | ok (eventId : String) (rejected : Bool) (message : Option String)
  | notice (message : String)
  | auth (challengeMessage : String)
deriving DecidableEq, Repr

end Nostr

/-- Outgoing client-to-relay frame of nostr/primitive.ts. -/
inductive Frame
  | req (subId : String) (filters : List Nostr.Filter)
  | close (subId : String)
  | event (ev : Nostr.Event)
deriving DecidableEq, Repr

/-- The REQ frame payload, as stored in the active-REQ registry. -/
structure REQ where
  subId : String
  filters : List Nostr.Filter
deriving DecidableEq, Repr

/-- One observable side effect of the client: a frame sent on a transport,
or a transport lifecycle operation. -/
inductive Op
  | send (url : String) (frame : Frame)
  | start (url : String)
  | stop (url : String)
  | disposeWs (url : String)
deriving DecidableEq, Repr

def Op.isCloseSend : Op → Bool
  | .send _ (.close _) => true
  | _ => false

def Op.isReqSend : Op → Bool
  | .send _ (.req _ _) => true
  | _ => false

structure MessagePacket where
  from_ : String
  message : Nostr.IncomingMessage
deriving DecidableEq, Repr

structure OkPacket where
  from_ : String
  id : String
deriving DecidableEq, Repr

structure ErrorPacket where
  from_ : String
  reason : String
deriving DecidableEq, Repr

structure ConnectionStatePacket where
  from_ : String
  state : ConnectionState
deriving DecidableEq, Repr

/-! ### JavaScript collection embeddings -/

/-- Lookup in a JS Map embedded as an association list (first match). -/
def mapGet {α : Type} : List (String × α) → String → Option α
  | [], _ => none
  | p :: rest, k => if p.1 = k then some p.2 else mapGet rest k

/-- JS Map.set: replace the binding if the key is present (keeping its
position), otherwise append, matching Map insertion order. -/
def mapSet {α : Type} : List (String × α) → String → α → List (String × α)
  | [], k, v => [(k, v)]
  | p :: rest, k, v => if p.1 = k then (k, v) :: rest else p :: mapSet rest k v

def mapKeys {α : Type} (m : List (String × α)) : List String :=
  m.map Prod.fst

/-- JS Set.add on an insertion-ordered duplicate-free list. -/
def setAdd (s : List String) (x : String) : List String :=
  if x ∈ s then s else s ++ [x]

/-! ### Relay pool state (index.ts) -/

/-- Relay config value as exposed by getRelays / accepted by setRelays. -/
structure Relay where
  url : String
  read : Bool
  write : Bool
deriving DecidableEq, Repr

/-- Per-relay record held in the pool map. The websocket object of the
source is represented by its observable state: the connection state, a
disposed flag (transport lifecycle calls are additionally recorded in the
operation trace). -/
structure RelayState where
  url : String
  read : Bool
  write : Bool
  activeSubIds : List String
  wsState : ConnectionState
  wsDisposed : Bool
deriving DecidableEq, Repr

/-- The mutable fields of RxNostrImpl. The three fan-in Subjects are
represented by their completed flags. -/
structure RxNostrState where
  relays : List (String × RelayState)
  activeReqs : List (String × REQ)
  messageCompleted : Bool := false
  errorCompleted : Bool := false
  statusCompleted : Bool := false
deriving DecidableEq, Repr

/-- One element of the array form accepted by setRelays. -/
inductive RelayInput
  | url (s : String)
  | relay (r : Relay)
deriving DecidableEq, Repr

/-- Argument of setRelays / switchRelays: either an array of URLs or relay
configs, or the url-to-flags record returned by a NIP-07 getRelays call. -/
inductive SetRelaysArg
  | list (rs : List RelayInput)
  | mapping (m : List (String × Bool × Bool))
deriving DecidableEq, Repr

def getRelays (st : RxNostrState) : List Relay :=
  st.relays.map (fun kv => { url := kv.2.url, read := kv.2.read, write := kv.2.write })

def getReadableUrls (relays : List RelayState) : List String :=
  (relays.filter (fun e => e.read)).map (fun e => e.url)

def getWritableUrls (relays : List RelayState) : List String :=
  (relays.filter (fun e => e.write)).map (fun e => e.url)

def subtract (a b : List String) : List String :=
  a.filter (fun e => !b.contains e)

/-- Scoped helper normalizeRelay of setRelays; norm stands for the
external normalize-url dependency (called with normalizeProtocol falsy,
out of scope per the spec), so every definition is parameterized by it. -/
def normalizeRelay (norm : String → String) : RelayInput → Relay
  | .url s => { url := norm s, read := true, write := true }
  | .relay r => { r with url := norm r.url }

/-- The input list of getNextRelayState: the array branch maps every
element through normalizeRelay, the object branch spreads the entries
verbatim. -/
def toRelayList (norm : String → String) : SetRelaysArg → List Relay
  | .list rs => rs.map (normalizeRelay norm)
  | .mapping m => m.map (fun p => { url := p.1, read := p.2.1, write := p.2.2 })

/-- Fresh websocket as built by createWebsocket. -/
def createWebsocketState : ConnectionState × Bool := (ConnectionState.initialized, false)

/-- Loop body of getNextRelayState: insert one incoming relay, reusing the
websocket and activeSubIds of a previous record with the same url. -/
def nextRelayStep (prev : List (String × RelayState))
    (next : List (String × RelayState)) (relay : Relay) : List (String × RelayState) :=
  let prevState := mapGet prev relay.url
  let ws := match prevState with
    | some s => (s.wsState, s.wsDisposed)
    | none => createWebsocketState
  let activeSubIds := match prevState with
    | some s => s.activeSubIds
    | none => []
  mapSet next relay.url
    { url := relay.url, read := relay.read, write := relay.write,
      activeSubIds := activeSubIds, wsState := ws.1, wsDisposed := ws.2 }

/-- Scoped helper getNextRelayState of setRelays: fold the incoming relay
list into a new map (last-wins on duplicate keys via Map.set). -/
def getNextRelayState (norm : String → String) (prev : List (String × RelayState))
    (arg : SetRelaysArg) : List (String × RelayState) :=
  (toRelayList norm arg).foldl (nextRelayStep prev) []

/-- Body of the ensureReq loop for one relay: skip when the relay is not
readable, or when not overwriting and the subId is already active;
otherwise send the REQ and record the subId. -/
def ensureReqRelay (req : REQ) (overwrite : Bool) (r : RelayState) : RelayState × List Op :=
  if !r.read || (!overwrite && r.activeSubIds.contains req.subId) then (r, [])
  else ({ r with activeSubIds := setAdd r.activeSubIds req.subId },
        [Op.send r.url (Frame.req req.subId req.filters)])

/-- ensureReq without a relays option: iterate over every pool record. -/
def ensureReqAll (req : REQ) (overwrite : Bool) :
    List (String × RelayState) → List (String × RelayState) × List Op
  | [] => ([], [])
  | kv :: rest =>
      let (r', tr) := ensureReqRelay req overwrite kv.2
      let (rest', tr') := ensureReqAll req overwrite rest
      ((kv.1, r') :: rest', tr ++ tr')

/-- The tap operator ensureReqOnNext of use: forward strategy passes
overwrite, backward and oneshot do not. -/
inductive Strategy
  | forward
  | backward
  | oneshot
deriving DecidableEq, Repr

def ensureReqOnNext (strategy : Strategy) (req : REQ)
    (relays : List (String × RelayState)) : List (String × RelayState) × List Op :=
  ensureReqAll req (strategy == Strategy.forward) relays

/-- ensureReq with an explicit relays option, as called from setRelays with
the newly readable urls looked up in the next map (overwrite is not set on
that call path). -/
def ensureReqOnUrls (req : REQ) (next : List (String × RelayState)) :
    List String → List (String × RelayState) × List Op
  | [] => (next, [])
  | url :: rest =>
      match mapGet next url with
      | none => ensureReqOnUrls req next rest
      | some r =>
          let (r', tr) := ensureReqRelay req false r
          let (m, tr') := ensureReqOnUrls req (mapSet next url r') rest
          (m, tr ++ tr')

/-- One pass of the rehydration loop of setRelays: for every registered
active REQ, run ensureReq against the newly readable relays. The source
contains this loop twice, verbatim. -/
def rehydratePass (urls : List String) (next : List (String × RelayState)) :
    List (String × REQ) → List (String × RelayState) × List Op
  | [] => (next, [])
  | kv :: rest =>
      let (m, tr) := ensureReqOnUrls kv.2 next urls
      let (m', tr') := rehydratePass urls m rest
      (m', tr ++ tr')

/-- Inner loop of finalizeReq for one relay, over the snapshot of subIds
taken before the loop: send CLOSE for each subId still active, and delete
it from the set. -/
def finalizeLoop (url : String) : RelayState → List String → RelayState × List Op
  | r, [] => (r, [])
  | r, sid :: rest =>
      ((finalizeLoop url
          { r with activeSubIds := r.activeSubIds.filter (fun x => x ≠ sid) } rest).1,
       (if sid ∈ r.activeSubIds then [Op.send url (Frame.close sid)] else []) ++
         (finalizeLoop url
           { r with activeSubIds := r.activeSubIds.filter (fun x => x ≠ sid) } rest).2)

/-- finalizeReq for one relay: snapshot the subIds (the given one, or all
active ones) and run the CLOSE-and-delete loop. -/
def finalizeReqOnRelay (subId : Option String) (r : RelayState) : RelayState × List Op :=
  finalizeLoop r.url r
    (match subId with
     | some s => [s]
     | none => r.activeSubIds)

def finalizeAll (subId : Option String) :
    List (String × RelayState) → List (String × RelayState) × List Op
  | [] => ([], [])
  | kv :: rest =>
      let (r', tr) := finalizeReqOnRelay subId kv.2
      let (rest', tr') := finalizeAll subId rest
      ((kv.1, r') :: rest', tr ++ tr')

/-- finalizeReq: throws when called with neither a subId nor a url; with a
url, unnull throws when the url is not in the pool; otherwise CLOSEs and
clears the addressed subscriptions. -/
def finalizeReq (st : RxNostrState) (subId url : Option String) :
    Except Unit (RxNostrState × List Op) :=
  match subId, url with
  | none, none => Except.error ()
  | _, some u =>
      match mapGet st.relays u with
      | none => Except.error ()
      | some r =>
          let (r', tr) := finalizeReqOnRelay subId r
          Except.ok ({ st with relays := mapSet st.relays u r' }, tr)
  | _, none =>
      let (relays', tr) := finalizeAll subId st.relays
      Except.ok ({ st with relays := relays' }, tr)

/-- getRelayState: throws on an unknown url, otherwise reports the
websocket state (the not-started fallback covers a record whose websocket
is not yet initialized, which cannot arise here). -/
def getRelayState (st : RxNostrState) (url : String) : Except Unit ConnectionState :=
  match mapGet st.relays url with
  | none => Except.error ()
  | some relay => Except.ok relay.wsState

def getAllRelayState (st : RxNostrState) : List (String × ConnectionState) :=
  st.relays.map (fun kv => (kv.2.url, kv.2.wsState))

/-! ### setRelays and the pool transition phases -/

/-- Drop phase body for one url that is no longer readable: finalizeReq
with that url (CLOSE every active subId and clear the set), then stop the
websocket. The activeSubIds Set and the websocket are shared by reference
between the old map and any next-map record with the same url, so both
maps are updated. Stopping a transport makes it terminated (modelled from
the spec state machine; websocket.ts is not among the sources). -/
def dropUrl (old next : List (String × RelayState)) (url : String) :
    (List (String × RelayState) × List (String × RelayState)) × List Op :=
  match mapGet old url with
  | none => ((old, next), [])
  | some r =>
      let r' := { (finalizeReqOnRelay none r).1 with wsState := ConnectionState.terminated }
      ((mapSet old url r',
        match mapGet next url with
        | none => next
        | some n => mapSet next url
            { n with activeSubIds := r'.activeSubIds,
                     wsState := ConnectionState.terminated }),
       (finalizeReqOnRelay none r).2 ++ [Op.stop url])

def dropPhase (old next : List (String × RelayState)) :
    List String → (List (String × RelayState) × List (String × RelayState)) × List Op
  | [] => ((old, next), [])
  | url :: rest =>
      let (ms, tr) := dropUrl old next url
      let (ms', tr') := dropPhase ms.1 ms.2 rest
      (ms', tr ++ tr')

/-- Start phase body for one newly readable url: start its websocket
(starting per the spec state machine). -/
def startUrl (next : List (String × RelayState)) (url : String) :
    List (String × RelayState) × List Op :=
  match mapGet next url with
  | none => (next, [])
  | some r => (mapSet next url { r with wsState := ConnectionState.starting }, [Op.start url])

def startPhase (next : List (String × RelayState)) :
    List String → List (String × RelayState) × List Op
  | [] => (next, [])
  | url :: rest =>
      let (m, tr) := startUrl next url
      let (m', tr') := startPhase m rest
      (m', tr ++ tr')

def nextRelaysOf (norm : String → String) (st : RxNostrState) (arg : SetRelaysArg) :
    List (String × RelayState) :=
  getNextRelayState norm st.relays arg

def urlsNoLongerReadOf (norm : String → String) (st : RxNostrState) (arg : SetRelaysArg) :
    List String :=
  subtract (getReadableUrls (st.relays.map Prod.snd))
    (getReadableUrls ((nextRelaysOf norm st arg).map Prod.snd))

def urlsToBeReadOf (norm : String → String) (st : RxNostrState) (arg : SetRelaysArg) :
    List String :=
  subtract (getReadableUrls ((nextRelaysOf norm st arg).map Prod.snd))
    (getReadableUrls (st.relays.map Prod.snd))

/-- setRelays: diff the readable url sets, CLOSE and stop the dropped
relays, start the added ones, replay every registered REQ to the added
relays (the source runs this loop twice), dispose relays that left the
pool entirely, and install the next map. -/
def setRelays (norm : String → String) (st : RxNostrState) (arg : SetRelaysArg) :
    RxNostrState × List Op :=
  let nextRelays := nextRelaysOf norm st arg
  let urlsNoLongerRead := urlsNoLongerReadOf norm st arg
  let dropped := dropPhase st.relays nextRelays urlsNoLongerRead
  let urlsToBeRead := urlsToBeReadOf norm st arg
  let started := startPhase dropped.1.2 urlsToBeRead
  let pass1 := rehydratePass urlsToBeRead started.1 st.activeReqs
  let pass2 := rehydratePass urlsToBeRead pass1.1 st.activeReqs
  let urlsNoLongerUsed := subtract (mapKeys st.relays) (mapKeys nextRelays)
  let disposeTrace := urlsNoLongerUsed.map Op.disposeWs
  ({ st with relays := pass2.1 },
   dropped.2 ++ started.2 ++ pass1.2 ++ pass2.2 ++ disposeTrace)

def switchRelays (norm : String → String) (st : RxNostrState) (arg : SetRelaysArg) :
    RxNostrState × List Op :=
  setRelays norm st arg

def addRelay (norm : String → String) (st : RxNostrState) (relay : RelayInput) :
    RxNostrState × List Op :=
  setRelays norm st (SetRelaysArg.list ((getRelays st).map RelayInput.relay ++ [relay]))

def hasRelay (st : RxNostrState) (url : String) : Bool :=
  (getRelays st).any (fun relay => relay.url == url)

/-- removeRelay: filter the current relay list by exact url comparison and
call setRelays only when something was actually removed. -/
def removeRelay (norm : String → String) (st : RxNostrState) (url : String) :
    RxNostrState × List Op :=
  let currentRelays := getRelays st
  let nextRelays := currentRelays.filter (fun relay => relay.url ≠ url)
  if currentRelays.length ≠ nextRelays.length then
    setRelays norm st (SetRelaysArg.list (nextRelays.map RelayInput.relay))
  else (st, [])

/-- dispose: complete the message and error Subjects and dispose every
relay websocket. -/
def dispose (st : RxNostrState) : RxNostrState × List Op :=
  ({ st with
      messageCompleted := true,
      errorCompleted := true,
      relays := st.relays.map (fun kv => (kv.1, { kv.2 with wsDisposed := true })) },
   st.relays.map (fun kv => Op.disposeWs kv.1))

/-! ### Publication engine (send) -/

/-- The all-messages listener attached by send: every OK frame, from any
relay, is turned into an OkPacket carrying the published event id; the
eventId field of the frame is not inspected. -/
def okListener (eventId : String) (incoming : List MessagePacket) : List OkPacket :=
  incoming.filterMap (fun p =>
    match p.message with
    | Nostr.IncomingMessage.ok _ _ _ => some { from_ := p.from_, id := eventId }
    | _ => none)

/-- The packet stream returned by send: the ReplaySubject sized to the
writable relay count piped through take of that count. -/
def sendPackets (st : RxNostrState) (ev : Nostr.Event) (incoming : List MessagePacket) :
    List OkPacket :=
  (okListener ev.id incoming).take (getWritableUrls (st.relays.map Prod.snd)).length

/-- The EVENT fan-out of send: one frame per writable relay. -/
def sendFrames (st : RxNostrState) (ev : Nostr.Event) : List Op :=
  (getWritableUrls (st.relays.map Prod.snd)).map (fun url => Op.send url (Frame.event ev))

/-! ### Per-relay message pipeline (createWebsocket) -/

/-- One underlying subscription of the websocket message observable: the
packets it delivers, then either normal completion or an error. -/
structure Attempt where
  msgs : List MessagePacket
  failure : Option String
deriving DecidableEq, Repr

/-- The rxjs retry operator with a fixed budget: on error resubscribe while
budget remains, concatenating the delivered packets; the error after the
last retry propagates. -/
def retryPipe : Nat → List Attempt → List MessagePacket × Option String
  | _, [] => ([], none)
  | _, ⟨msgs, none⟩ :: _ => (msgs, none)
  | 0, ⟨msgs, some e⟩ :: _ => (msgs, some e)
  | b + 1, ⟨msgs, some _⟩ :: rest =>
      let (ms, r) := retryPipe b rest
      (msgs ++ ms, r)

/-- Result of the message pipeline wired up by createWebsocket. -/
structure PipeResult where
  toMessageStream : List MessagePacket
  errorPackets : List ErrorPacket
  relay : RelayState
  terminalError : Option String
deriving DecidableEq, Repr

/-- The catchError stage of createWebsocket: when the retried message
observable finally errors, clear the activeSubIds of the relay, emit one
ErrorPacket on the error Subject and replace the stream by EMPTY, so the
subscription feeding the message Subject never receives an error. -/
def createWebsocketMessagePipe (retryCount : Nat) (url : String) (r : RelayState)
    (attempts : List Attempt) : PipeResult :=
  let (msgs, err) := retryPipe retryCount attempts
  match err with
  | none => { toMessageStream := msgs, errorPackets := [], relay := r, terminalError := none }
  | some reason =>
      { toMessageStream := msgs,
        errorPackets := [{ from_ := url, reason := reason }],
        relay := { r with activeSubIds := [] },
        terminalError := none }

/-! ### Backward and oneshot completion management -/

/-- The shouldComplete predicate of createEoseManagedEventObservable,
exactly as evaluated by the source over getAllRelayState. -/
def shouldComplete (eoseRelays : List String) (status : List (String × ConnectionState)) :
    Bool :=
  status.all (fun p =>
    p.2 == ConnectionState.error || p.2 == ConnectionState.terminated ||
    (p.2 == ConnectionState.ongoing && eoseRelays.contains p.1))

/-- The completion predicate in the words of the spec sentence behind the
claim, for comparison with shouldComplete: it additionally accepts the
rejected state. -/
def shouldCompleteSpec (eoseRelays : List String) (status : List (String × ConnectionState)) :
    Bool :=
  status.all (fun p =>
    p.2 == ConnectionState.error || p.2 == ConnectionState.terminated ||
    p.2 == ConnectionState.rejected ||
    (p.2 == ConnectionState.ongoing && eoseRelays.contains p.1))

/-- The events that wake the completion manager: an EOSE recorded for this
subId (merged in through the eose Subject, after the sender was added to
eoseRelays), or a connection-state transition of some relay. -/
inductive CompletionTrigger
  | eose (from_ : String)
  | connState (from_ : String) (state : ConnectionState)
deriving DecidableEq, Repr

def applyTrigger (e : List String) (s : List (String × ConnectionState)) :
    CompletionTrigger → List String × List (String × ConnectionState)
  | .eose f => (setAdd e f, s)
  | .connState f st => (e, mapSet s f st)

def applyTriggers (e : List String) (s : List (String × ConnectionState)) :
    List CompletionTrigger → List String × List (String × ConnectionState)
  | [] => (e, s)
  | t :: ts =>
      let (e', s') := applyTrigger e s t
      applyTriggers e' s' ts

/-- The manageCompletion subscription: on every trigger, re-evaluate
shouldComplete over the current eoseRelays and relay states; the inner
stream completes as soon as some evaluation succeeds. -/
def managerFires (e : List String) (s : List (String × ConnectionState)) :
    List CompletionTrigger → Bool
  | [] => false
  | t :: ts =>
      let (e', s') := applyTrigger e s t
      shouldComplete e' s' || managerFires e' s' ts

/-! ### Auxiliary definitions used by the statements -/

/-- Predicate on incoming messages used to describe the send listener. -/
def Nostr.IncomingMessage.isOk : Nostr.IncomingMessage → Bool
  | .ok _ _ _ => true
  | _ => false

/-- The REQ frames carrying a given subId that a trace sends to a given
url, in order. -/
def reqSendsTo (tr : List Op) (url subId : String) : List Frame :=
  tr.filterMap (fun op =>
    match op with
    | Op.send u (Frame.req s fs) =>
        if u = url ∧ s = subId then some (Frame.req s fs) else none
    | _ => none)

/-- Concrete stand-in for the external normalize-url dependency, used only
to evaluate theorems on explicit inputs: it strips a trailing slash, one
of the rewrites the real normalizer performs. -/
def sampleNorm (s : String) : String :=
  match s.data.getLast? with
  | some '/' => String.mk s.data.dropLast
  | _ => s

/-- Well-formedness of the client state: the two maps have duplicate-free
keys, every pool record is keyed by its own url, and every registry entry
is keyed by the subId of its REQ (all maintained by the source, which
only ever inserts with these keys). -/
def WF (st : RxNostrState) : Prop :=
  (mapKeys st.relays).Nodup ∧
  (∀ kv ∈ st.relays, kv.2.url = kv.1) ∧
  (mapKeys st.activeReqs).Nodup ∧
  (∀ kv ∈ st.activeReqs, kv.2.subId = kv.1)

instance (st : RxNostrState) : Decidable (WF st) := by
  unfold WF
  infer_instance

/-! ### Map lemmas -/

theorem mapGet_mapSet_self {α : Type} (m : List (String × α)) (k : String) (v : α) :
    mapGet (mapSet m k v) k = some v := by
  induction m with
  | nil => simp [mapSet, mapGet]
  | cons p rest ih =>
      by_cases h : p.1 = k
      · simp [mapSet, h, mapGet]
      · simp [mapSet, h, mapGet, ih]

theorem mapGet_mapSet_ne {α : Type} (m : List (String × α)) (k k' : String) (v : α)
    (h : k' ≠ k) : mapGet (mapSet m k v) k' = mapGet m k' := by
  have h' : k ≠ k' := Ne.symm h
  induction m with
  | nil => simp [mapSet, mapGet, h']
  | cons p rest ih =>
      by_cases hp : p.1 = k
      · simp [mapSet, hp, mapGet, h']
      · simp [mapSet, hp, mapGet, ih]

theorem mem_of_mem_mapSet {α : Type} {m : List (String × α)} {k : String} {v : α}
    {kv : String × α} (h : kv ∈ mapSet m k v) : kv = (k, v) ∨ kv ∈ m := by
  induction m with
  | nil => simpa [mapSet] using h
  | cons p rest ih =>
      by_cases hp : p.1 = k
      · simp only [mapSet, hp, if_pos rfl] at h
        rcases List.mem_cons.mp h with h' | h'
        · exact Or.inl h'
        · exact Or.inr (List.mem_cons_of_mem _ h')
      · simp only [mapSet, if_neg hp] at h
        rcases List.mem_cons.mp h with h' | h'
        · exact Or.inr (h' ▸ List.mem_cons_self _ _)
        · rcases ih h' with h'' | h''
          · exact Or.inl h''
          · exact Or.inr (List.mem_cons_of_mem _ h'')

theorem mapGet_eq_some_of_mem {α : Type} {m : List (String × α)} {k : String} {v : α}
    (hnd : (mapKeys m).Nodup) (h : (k, v) ∈ m) : mapGet m k = some v := by
  induction m with
  | nil => cases h
  | cons p rest ih =>
      simp only [mapKeys, List.map_cons, List.nodup_cons] at hnd
      rcases List.mem_cons.mp h with h' | h'
      · subst h'
        simp [mapGet]
      · have hk : p.1 ≠ k := by
          intro he
          exact hnd.1 (he ▸ (List.mem_map.mpr ⟨(k, v), h', rfl⟩))
        simp [mapGet, hk]
        exact ih hnd.2 h'

theorem mem_of_mapGet_eq_some {α : Type} {m : List (String × α)} {k : String} {v : α}
    (h : mapGet m k = some v) : (k, v) ∈ m := by
  induction m with
  | nil => simp [mapGet] at h
  | cons p rest ih =>
      obtain ⟨a, b⟩ := p
      by_cases hp : a = k
      · subst hp
        simp [mapGet] at h
        subst h
        exact List.mem_cons_self _ _
      · simp [mapGet, hp] at h
        exact List.mem_cons_of_mem _ (ih h)

theorem mapKeys_mapSet_of_mem {α : Type} {m : List (String × α)} {k : String} (v : α)
    (h : k ∈ mapKeys m) : mapKeys (mapSet m k v) = mapKeys m := by
  induction m with
  | nil => cases h
  | cons p rest ih =>
      by_cases hp : p.1 = k
      · simp [mapSet, hp, mapKeys]
      · simp only [mapKeys, List.map_cons, List.mem_cons] at h
        rcases h with h' | h'
        · exact absurd h'.symm hp
        · simp [mapSet, hp, mapKeys]
          exact ih h'

theorem mapKeys_mapSet_of_not_mem {α : Type} {m : List (String × α)} {k : String} (v : α)
    (h : k ∉ mapKeys m) : mapKeys (mapSet m k v) = mapKeys m ++ [k] := by
  induction m with
  | nil => simp [mapSet, mapKeys]
  | cons p rest ih =>
      obtain ⟨a, b⟩ := p
      simp only [mapKeys, List.map_cons, List.mem_cons] at h
      push_neg at h
      have ha : ¬(a = k) := Ne.symm h.1
      have hrest := ih h.2
      simp only [mapKeys] at hrest
      simp [mapSet, ha, mapKeys, hrest]

theorem nodup_mapKeys_mapSet {α : Type} {m : List (String × α)} {k : String} {v : α}
    (hnd : (mapKeys m).Nodup) : (mapKeys (mapSet m k v)).Nodup := by
  by_cases h : k ∈ mapKeys m
  · rw [mapKeys_mapSet_of_mem v h]; exact hnd
  · rw [mapKeys_mapSet_of_not_mem v h]
    simpa [List.nodup_append] using ⟨hnd, h⟩

theorem mem_setAdd {s : List String} {x y : String} :
    y ∈ setAdd s x ↔ y ∈ s ∨ y = x := by
  by_cases h : x ∈ s
  · simp only [setAdd, if_pos h]
    constructor
    · exact Or.inl
    · rintro (h' | rfl)
      · exact h'
      · exact h
  · simp [setAdd, if_neg h]

theorem contains_iff_mem (l : List String) (x : String) : l.contains x = true ↔ x ∈ l :=
  List.elem_iff

/-! ### Unfolding lemmas for the recursive operations -/

theorem ensureReqAll_cons (req : REQ) (ow : Bool) (kv : String × RelayState)
    (rest : List (String × RelayState)) :
    ensureReqAll req ow (kv :: rest) =
      ((kv.1, (ensureReqRelay req ow kv.2).1) :: (ensureReqAll req ow rest).1,
       (ensureReqRelay req ow kv.2).2 ++ (ensureReqAll req ow rest).2) := by
  rcases h1 : ensureReqRelay req ow kv.2 with ⟨r', tr⟩
  rcases h2 : ensureReqAll req ow rest with ⟨rest', tr'⟩
  simp [ensureReqAll, h1, h2]

theorem rehydratePass_cons (urls : List String) (next : List (String × RelayState))
    (kv : String × REQ) (rest : List (String × REQ)) :
    rehydratePass urls next (kv :: rest) =
      ((rehydratePass urls (ensureReqOnUrls kv.2 next urls).1 rest).1,
       (ensureReqOnUrls kv.2 next urls).2 ++
         (rehydratePass urls (ensureReqOnUrls kv.2 next urls).1 rest).2) := by
  rcases h1 : ensureReqOnUrls kv.2 next urls with ⟨m, tr⟩
  rcases h2 : rehydratePass urls m rest with ⟨m', tr'⟩
  simp [rehydratePass, h1, h2]

theorem ensureReqOnUrls_cons_found (req : REQ) (next : List (String × RelayState))
    (url : String) (rest : List String) (r : RelayState)
    (h : mapGet next url = some r) :
    ensureReqOnUrls req next (url :: rest) =
      ((ensureReqOnUrls req (mapSet next url (ensureReqRelay req false r).1) rest).1,
       (ensureReqRelay req false r).2 ++
         (ensureReqOnUrls req (mapSet next url (ensureReqRelay req false r).1) rest).2) := by
  rcases h1 : ensureReqRelay req false r with ⟨r', tr⟩
  rcases h2 : ensureReqOnUrls req (mapSet next url r') rest with ⟨m, tr'⟩
  simp [ensureReqOnUrls, h, h1, h2]

theorem ensureReqOnUrls_cons_missing (req : REQ) (next : List (String × RelayState))
    (url : String) (rest : List String) (h : mapGet next url = none) :
    ensureReqOnUrls req next (url :: rest) = ensureReqOnUrls req next rest := by
  simp [ensureReqOnUrls, h]

theorem dropPhase_cons (old next : List (String × RelayState)) (url : String)
    (rest : List String) :
    dropPhase old next (url :: rest) =
      ((dropPhase (dropUrl old next url).1.1 (dropUrl old next url).1.2 rest).1,
       (dropUrl old next url).2 ++
         (dropPhase (dropUrl old next url).1.1 (dropUrl old next url).1.2 rest).2) := by
  rcases h1 : dropUrl old next url with ⟨⟨o, n⟩, tr⟩
  rcases h2 : dropPhase o n rest with ⟨ms, tr'⟩
  simp [dropPhase, h1, h2]

theorem startPhase_cons (next : List (String × RelayState)) (url : String)
    (rest : List String) :
    startPhase next (url :: rest) =
      ((startPhase (startUrl next url).1 rest).1,
       (startUrl next url).2 ++ (startPhase (startUrl next url).1 rest).2) := by
  rcases h1 : startUrl next url with ⟨m, tr⟩
  rcases h2 : startPhase m rest with ⟨m', tr'⟩
  simp [startPhase, h1, h2]

/-! ### ensureReq characterization -/

theorem ensureReqRelay_trace (req : REQ) (ow : Bool) (r : RelayState) :
    (ensureReqRelay req ow r).2 =
      if r.read = true ∧ (ow = true ∨ req.subId ∉ r.activeSubIds)
      then [Op.send r.url (Frame.req req.subId req.filters)] else [] := by
  rcases r with ⟨url, read, write, subs, wsS, wsD⟩
  cases read <;> cases ow <;> by_cases hm : req.subId ∈ subs <;>
    simp_all [ensureReqRelay, List.elem_iff]

theorem ensureReqRelay_state (req : REQ) (ow : Bool) (r : RelayState) :
    (ensureReqRelay req ow r).1 =
      if r.read = true ∧ (ow = true ∨ req.subId ∉ r.activeSubIds)
      then { r with activeSubIds := setAdd r.activeSubIds req.subId } else r := by
  rcases r with ⟨url, read, write, subs, wsS, wsD⟩
  cases read <;> cases ow <;> by_cases hm : req.subId ∈ subs <;>
    simp_all [ensureReqRelay, List.elem_iff]

theorem ensureReqAll_trace_shape (req : REQ) (ow : Bool)
    (relays : List (String × RelayState)) :
    ∀ op ∈ (ensureReqAll req ow relays).2,
      ∃ kv ∈ relays, op = Op.send kv.2.url (Frame.req req.subId req.filters) := by
  induction relays with
  | nil => simp [ensureReqAll]
  | cons hd rest ih =>
      intro op hop
      rw [ensureReqAll_cons] at hop
      simp only [List.mem_append] at hop
      rcases hop with h | h
      · rw [ensureReqRelay_trace] at h
        split at h
        · simp only [List.mem_singleton] at h
          exact ⟨hd, List.mem_cons_self _ _, h⟩
        · simp at h
      · obtain ⟨kv', hkv', heq⟩ := ih op h
        exact ⟨kv', List.mem_cons_of_mem _ hkv', heq⟩

theorem ensureReqAll_send_mem (req : REQ) (ow : Bool)
    (relays : List (String × RelayState))
    (hnd : (relays.map (fun kv => kv.2.url)).Nodup) :
    ∀ kv ∈ relays,
      (Op.send kv.2.url (Frame.req req.subId req.filters) ∈ (ensureReqAll req ow relays).2 ↔
        (kv.2.read = true ∧ (ow = true ∨ req.subId ∉ kv.2.activeSubIds))) := by
  induction relays with
  | nil => simp
  | cons hd rest ih =>
      simp only [List.map_cons, List.nodup_cons] at hnd
      intro kv hkv
      rw [ensureReqAll_cons]
      simp only [List.mem_append]
      rcases List.mem_cons.mp hkv with rfl | hkv'
      · constructor
        · rintro (h | h)
          · by_cases hcond : kv.2.read = true ∧ (ow = true ∨ req.subId ∉ kv.2.activeSubIds)
            · exact hcond
            · rw [ensureReqRelay_trace, if_neg hcond] at h
              simp at h
          · exfalso
            obtain ⟨kv', hkv', heq⟩ := ensureReqAll_trace_shape req ow rest _ h
            have hurl : kv.2.url = kv'.2.url := by
              simpa using heq
            exact hnd.1 (hurl ▸ List.mem_map.mpr ⟨kv', hkv', rfl⟩)
        · intro hcond
          left
          rw [ensureReqRelay_trace, if_pos hcond]
          exact List.mem_singleton.mpr rfl
      · have hnot : Op.send kv.2.url (Frame.req req.subId req.filters) ∉
            (ensureReqRelay req ow hd.2).2 := by
          rw [ensureReqRelay_trace]
          intro hmem
          have hurl : kv.2.url = hd.2.url := by
            by_cases hcond : hd.2.read = true ∧ (ow = true ∨ req.subId ∉ hd.2.activeSubIds)
            · rw [if_pos hcond] at hmem
              simpa using hmem
            · rw [if_neg hcond] at hmem
              simp at hmem
          exact hnd.1 (hurl ▸ List.mem_map.mpr ⟨kv, hkv', rfl⟩)
        constructor
        · rintro (h | h)
          · exact absurd h hnot
          · exact (ih hnd.2 kv hkv').mp h
        · intro h
          exact Or.inr ((ih hnd.2 kv hkv').mpr h)

/-! ### Completion manager lemmas -/

theorem shouldComplete_iff (e : List String) (s : List (String × ConnectionState)) :
    shouldComplete e s = true ↔
      ∀ p ∈ s, p.2 = ConnectionState.error ∨ p.2 = ConnectionState.terminated ∨
        (p.2 = ConnectionState.ongoing ∧ p.1 ∈ e) := by
  simp [shouldComplete, List.all_eq_true, List.elem_iff, or_assoc]

theorem applyTriggers_cons (e : List String) (s : List (String × ConnectionState))
    (t : CompletionTrigger) (ts : List CompletionTrigger) :
    applyTriggers e s (t :: ts) =
      applyTriggers (applyTrigger e s t).1 (applyTrigger e s t).2 ts := by
  cases t <;> simp [applyTriggers, applyTrigger]

theorem managerFires_cons (e : List String) (s : List (String × ConnectionState))
    (t : CompletionTrigger) (ts : List CompletionTrigger) :
    managerFires e s (t :: ts) =
      (shouldComplete (applyTrigger e s t).1 (applyTrigger e s t).2 ||
        managerFires (applyTrigger e s t).1 (applyTrigger e s t).2 ts) := by
  cases t <;> simp [managerFires, applyTrigger]

theorem managerFires_iff (e : List String) (s : List (String × ConnectionState))
    (ts : List CompletionTrigger) :
    managerFires e s ts = true ↔
      ∃ n, n < ts.length ∧
        shouldComplete (applyTriggers e s (ts.take (n + 1))).1
          (applyTriggers e s (ts.take (n + 1))).2 = true := by
  induction ts generalizing e s with
  | nil => simp [managerFires]
  | cons t ts ih =>
      rw [managerFires_cons, Bool.or_eq_true, ih]
      constructor
      · rintro (h | ⟨n, hn, h⟩)
        · refine ⟨0, by simp, ?_⟩
          simpa [applyTriggers_cons, applyTriggers] using h
        · refine ⟨n + 1, by simpa using Nat.succ_lt_succ hn, ?_⟩
          simpa [List.take_succ_cons, applyTriggers_cons] using h
      · rintro ⟨n, hn, h⟩
        cases n with
        | zero =>
            left
            simpa [applyTriggers_cons, applyTriggers] using h
        | succ m =>
            right
            refine ⟨m, Nat.lt_of_succ_lt_succ hn, ?_⟩
            simpa [List.take_succ_cons, applyTriggers_cons] using h

/-! ### Claim C1 -/

/-- C1 counterexample: the claim (and the spec sentence behind it) states
that a relay in one of the states error, terminated, rejected satisfies
the completion condition. The code only tests error and terminated: with a
single relay in state rejected and no EOSE received, the spec predicate
completes while the code predicate does not, so the inner stream does not
complete there. -/
theorem backward_completion_rejected_counterexample :
    shouldComplete [] [("wss://relay.example", ConnectionState.rejected)] = false ∧
    shouldCompleteSpec [] [("wss://relay.example", ConnectionState.rejected)] = true := by
  decide

/-- C1 amended: for a backward or oneshot subscription the inner event
stream completes exactly when for every relay in the pool the state is
error or terminated, or the state is ongoing and the relay has delivered
EOSE for this subId (a relay in state rejected does not satisfy the
condition); the check is re-evaluated on every incoming EOSE and on every
connection-state transition, and the stream completes as soon as one of
these re-evaluations succeeds. -/
theorem backward_completion_amended (e : List String)
    (s : List (String × ConnectionState)) (ts : List CompletionTrigger) :
    (shouldComplete e s = true ↔
      ∀ p ∈ s, p.2 = ConnectionState.error ∨ p.2 = ConnectionState.terminated ∨
        (p.2 = ConnectionState.ongoing ∧ p.1 ∈ e)) ∧
    (managerFires e s ts = true ↔
      ∃ n, n < ts.length ∧
        shouldComplete (applyTriggers e s (ts.take (n + 1))).1
          (applyTriggers e s (ts.take (n + 1))).2 = true) :=
  ⟨shouldComplete_iff e s, managerFires_iff e s ts⟩

/-- Witness for C1 amended: a single ongoing relay, one EOSE trigger; the
manager fires. -/
theorem backward_completion_amended_witness :
    managerFires [] [("wss://relay.example", ConnectionState.ongoing)]
      [CompletionTrigger.eose "wss://relay.example"] = true :=
  (backward_completion_amended [] [("wss://relay.example", ConnectionState.ongoing)]
      [CompletionTrigger.eose "wss://relay.example"]).2.mpr
    ⟨0, by decide, by decide⟩

/-! ### Claim C4 -/

/-- C4 evidence: normalizeRelay is applied only to the array branch of
getNextRelayState. Feeding the NIP-07 style mapping form with the raw key
"wss://example.com/" leaves the key un-normalized in the resulting pool
map, while the same url through the array branch is normalized; thus the
pool is keyed by the raw string and lookups with the normalized form miss
it. -/
theorem mapping_branch_skips_normalization :
    mapKeys (getNextRelayState sampleNorm []
        (SetRelaysArg.mapping [("wss://example.com/", true, true)])) =
      ["wss://example.com/"] ∧
    mapKeys (getNextRelayState sampleNorm []
        (SetRelaysArg.list [RelayInput.url "wss://example.com/"])) =
      ["wss://example.com"] ∧
    sampleNorm "wss://example.com/" = "wss://example.com" ∧
    mapGet (getNextRelayState sampleNorm []
        (SetRelaysArg.mapping [("wss://example.com/", true, true)]))
      "wss://example.com" = none := by
  decide

/-! ### Claim C6 -/

def disposeFixtureRelay : RelayState :=
  { url := "wss://a.example", read := true, write := true, activeSubIds := ["sub:0"],
    wsState := ConnectionState.ongoing, wsDisposed := false }

def disposeFixture : RxNostrState :=
  { relays := [("wss://a.example", disposeFixtureRelay)], activeReqs := [] }

/-- C6 counterexample: after dispose the connection-state Subject is not
completed (dispose only completes the message and error Subjects), and a
subsequent setRelays call still mutates the pool, so mutations after
dispose are not no-ops. -/
theorem dispose_counterexample :
    (dispose disposeFixture).1.statusCompleted = false ∧
    (setRelays sampleNorm (dispose disposeFixture).1 (SetRelaysArg.list [])).1.relays ≠
      (dispose disposeFixture).1.relays := by
  decide

/-- C6 amended: after dispose the all-messages and all-errors fan-in
streams are completed and every relay websocket is disposed, and dispose
is idempotent on the client state; the connection-state stream is not
completed and later pool mutations still take effect. -/
theorem dispose_amended (st : RxNostrState) :
    (dispose st).1.messageCompleted = true ∧
    (dispose st).1.errorCompleted = true ∧
    (∀ kv ∈ (dispose st).1.relays, kv.2.wsDisposed = true) ∧
    (dispose (dispose st).1).1 = (dispose st).1 := by
  refine ⟨rfl, rfl, ?_, ?_⟩
  · intro kv hkv
    simp only [dispose, List.mem_map] at hkv
    obtain ⟨p, _, rfl⟩ := hkv
    rfl
  · simp only [dispose, List.map_map]
    rfl

/-- Witness for C6 amended at a concrete state. -/
theorem dispose_amended_witness :
    (∀ kv ∈ (dispose disposeFixture).1.relays, kv.2.wsDisposed = true) ∧
    (dispose (dispose disposeFixture).1).1 = (dispose disposeFixture).1 :=
  ⟨(dispose_amended disposeFixture).2.2.1, (dispose_amended disposeFixture).2.2.2⟩

/-! ### Claim C9 -/

/-- C9: getRelayState with a url that is not a key of the pool map throws,
and finalizeReq with neither a subId nor a url throws; both are modelled
as errors produced before any state change or frame send, matching the
source where the throw is the first statement executed. -/
theorem fatal_lookup_and_finalize (st : RxNostrState) (url : String)
    (h : mapGet st.relays url = none) :
    getRelayState st url = Except.error () ∧
    finalizeReq st none none = Except.error () := by
  constructor
  · simp [getRelayState, h]
  · rfl

def fatalFixture : RxNostrState :=
  { relays := [("wss://known.example",
      { url := "wss://known.example", read := true, write := true, activeSubIds := [],
        wsState := ConnectionState.ongoing, wsDisposed := false })],
    activeReqs := [] }

/-- Witness for C9: an unknown url on a concrete pool. -/
theorem fatal_lookup_and_finalize_witness :
    getRelayState fatalFixture "wss://unknown.example" = Except.error () ∧
    finalizeReq fatalFixture none none = Except.error () :=
  fatal_lookup_and_finalize fatalFixture "wss://unknown.example" (by decide)

/-! ### Claim C10 -/

/-- C10: removeRelay with a url that matches no pool entry by exact string
comparison returns the state unchanged with an empty operation trace: no
map entry, activeSubIds set or registry entry changes, no frame is sent
and no transport lifecycle call is made. -/
theorem remove_relay_unknown_noop (norm : String → String) (st : RxNostrState)
    (url : String) (h : ∀ relay ∈ getRelays st, relay.url ≠ url) :
    removeRelay norm st url = (st, []) := by
  have hf : (getRelays st).filter (fun relay => !decide (relay.url = url)) = getRelays st := by
    apply List.filter_eq_self.mpr
    intro a ha
    simpa using h a ha
  simp [removeRelay, hf]

def removeFixture : RxNostrState :=
  { relays := [("wss://keep.example",
      { url := "wss://keep.example", read := true, write := false, activeSubIds := ["sub:0"],
        wsState := ConnectionState.ongoing, wsDisposed := false })],
    activeReqs := [] }

/-- Witness for C10 at a concrete pool and an absent url. -/
theorem remove_relay_unknown_noop_witness :
    removeRelay sampleNorm removeFixture "wss://other.example" = (removeFixture, []) :=
  remove_relay_unknown_noop sampleNorm removeFixture "wss://other.example" (by decide)

/-! ### Claim C7 -/

/-- C7: when the retried message observable of a relay finally errors, the
catchError stage emits exactly one ErrorPacket for that relay on the
all-errors Subject and clears the relay activeSubIds; and in every case
the stream feeding the shared message Subject terminates without an error
(catchError substitutes EMPTY), which is why observables returned by use,
being derived from that Subject, never error. -/
theorem transport_error_isolation (retryCount : Nat) (url : String) (r : RelayState)
    (attempts : List Attempt) :
    (createWebsocketMessagePipe retryCount url r attempts).terminalError = none ∧
    ∀ reason, (retryPipe retryCount attempts).2 = some reason →
      (createWebsocketMessagePipe retryCount url r attempts).errorPackets =
        [{ from_ := url, reason := reason }] ∧
      (createWebsocketMessagePipe retryCount url r attempts).relay.activeSubIds = [] := by
  rcases hre : retryPipe retryCount attempts with ⟨msgs, err⟩
  cases err with
  | none =>
      refine ⟨by simp [createWebsocketMessagePipe, hre], ?_⟩
      intro reason hr
      simp at hr
  | some reason' =>
      refine ⟨by simp [createWebsocketMessagePipe, hre], ?_⟩
      intro reason hr
      obtain rfl : reason' = reason := by simpa using hr
      constructor <;> simp [createWebsocketMessagePipe, hre]

def failingRelayFixture : RelayState :=
  { url := "wss://f.example", read := true, write := false, activeSubIds := ["sub:0"],
    wsState := ConnectionState.reconnecting, wsDisposed := false }

/-- Witness for C7: a transport whose only attempt fails with no retry
budget left. -/
theorem transport_error_isolation_witness :
    (createWebsocketMessagePipe 0 "wss://f.example" failingRelayFixture
        [⟨[], some "socket closed"⟩]).errorPackets =
      [{ from_ := "wss://f.example", reason := "socket closed" }] ∧
    (createWebsocketMessagePipe 0 "wss://f.example" failingRelayFixture
        [⟨[], some "socket closed"⟩]).relay.activeSubIds = [] :=
  (transport_error_isolation 0 "wss://f.example" failingRelayFixture
      [⟨[], some "socket closed"⟩]).2 "socket closed" (by decide)

/-! ### Claim C5 -/

theorem okListener_eq (eventId : String) (incoming : List MessagePacket) :
    okListener eventId incoming =
      (incoming.filter (fun p => p.message.isOk)).map
        (fun p => { from_ := p.from_, id := eventId }) := by
  induction incoming with
  | nil => rfl
  | cons p rest ih =>
      cases hm : p.message <;>
        simp [okListener, Nostr.IncomingMessage.isOk, hm, ih, List.filter_cons] <;>
        simpa [okListener] using ih

/-- C5: with W the number of writable relays at call time, the stream
returned by send yields at most W OkPackets and yields exactly W (and thus
completes, by the take operator) once W OK frames have arrived; every
packet carries the id of the signed event; and any OK frame from any
relay produces a packet, whatever its eventId field says, since that
field is never compared against the published event. -/
theorem send_ok_packets (st : RxNostrState) (ev : Nostr.Event)
    (incoming : List MessagePacket) :
    (sendPackets st ev incoming).length ≤
      (getWritableUrls (st.relays.map Prod.snd)).length ∧
    (∀ p ∈ sendPackets st ev incoming, p.id = ev.id) ∧
    ((getWritableUrls (st.relays.map Prod.snd)).length ≤
        (incoming.filter (fun p => p.message.isOk)).length →
      (sendPackets st ev incoming).length =
        (getWritableUrls (st.relays.map Prod.snd)).length) ∧
    (∀ f eid rej msg rest,
      sendPackets st ev ({ from_ := f, message := Nostr.IncomingMessage.ok eid rej msg } :: rest) =
        ({ from_ := f, id := ev.id } :: okListener ev.id rest).take
          (getWritableUrls (st.relays.map Prod.snd)).length) := by
  refine ⟨?_, ?_, ?_, ?_⟩
  · exact List.length_take_le _ _
  · intro p hp
    have hp' : p ∈ okListener ev.id incoming := List.mem_of_mem_take hp
    rw [okListener_eq] at hp'
    obtain ⟨q, _, rfl⟩ := List.mem_map.mp hp'
    rfl
  · intro hW
    have hlen : (okListener ev.id incoming).length =
        (incoming.filter (fun p => p.message.isOk)).length := by
      rw [okListener_eq, List.length_map]
    unfold sendPackets
    rw [List.length_take, hlen]
    exact min_eq_left hW
  · intro f eid rej msg rest
    simp [sendPackets, okListener]

def sendStFixture : RxNostrState :=
  { relays := [("wss://w.example",
      { url := "wss://w.example", read := true, write := true, activeSubIds := [],
        wsState := ConnectionState.ongoing, wsDisposed := false })],
    activeReqs := [] }

def sendEvFixture : Nostr.Event :=
  { id := "event-id", sig := "sig", kind := 1, tags := [], pubkey := "pk",
    content := "hello", created_at := 0 }

/-- Witness for C5: one writable relay; an OK frame whose eventId field
differs from the published event still yields the packet, carrying the
published id. -/
theorem send_ok_packets_witness :
    sendPackets sendStFixture sendEvFixture
        [{ from_ := "wss://w.example",
           message := Nostr.IncomingMessage.ok "some-other-id" false none }] =
      [{ from_ := "wss://w.example", id := "event-id" }] :=
  (send_ok_packets sendStFixture sendEvFixture
      [{ from_ := "wss://w.example",
         message := Nostr.IncomingMessage.ok "some-other-id" false none }]).2.2.2
    "wss://w.example" "some-other-id" false none []

/-! ### Claim C3 -/

/-- C3: a REQ issued through ensureReqOnNext is sent to a relay exactly
when the relay is readable and, unless the strategy is forward (which
overwrites without consulting activeSubIds), the subId is not already in
the relay activeSubIds; in particular a relay whose read flag is false
never receives the REQ under any strategy. -/
theorem req_send_policy (strategy : Strategy) (req : REQ)
    (relays : List (String × RelayState))
    (hnd : (relays.map (fun kv => kv.2.url)).Nodup) :
    ∀ kv ∈ relays,
      (Op.send kv.2.url (Frame.req req.subId req.filters) ∈
          (ensureReqOnNext strategy req relays).2 ↔
        (kv.2.read = true ∧
          (strategy = Strategy.forward ∨ req.subId ∉ kv.2.activeSubIds))) := by
  intro kv hkv
  unfold ensureReqOnNext
  rw [ensureReqAll_send_mem req (strategy == Strategy.forward) relays hnd kv hkv]
  simp [beq_iff_eq]

def policyReadableRelay : RelayState :=
  { url := "wss://read.example", read := true, write := false, activeSubIds := [],
    wsState := ConnectionState.ongoing, wsDisposed := false }

def policyUnreadableRelay : RelayState :=
  { url := "wss://noread.example", read := false, write := true, activeSubIds := [],
    wsState := ConnectionState.ongoing, wsDisposed := false }

/-- Witness for C3: under the backward strategy a readable relay without
the subId receives the REQ, and the relay with read set to false does
not. -/
theorem req_send_policy_witness :
    Op.send "wss://read.example" (Frame.req "sub:0" []) ∈
      (ensureReqOnNext Strategy.backward ⟨"sub:0", []⟩
        [("wss://read.example", policyReadableRelay),
         ("wss://noread.example", policyUnreadableRelay)]).2 ∧
    Op.send "wss://noread.example" (Frame.req "sub:0" []) ∉
      (ensureReqOnNext Strategy.backward ⟨"sub:0", []⟩
        [("wss://read.example", policyReadableRelay),
         ("wss://noread.example", policyUnreadableRelay)]).2 :=
  ⟨(req_send_policy Strategy.backward ⟨"sub:0", []⟩
      [("wss://read.example", policyReadableRelay),
       ("wss://noread.example", policyUnreadableRelay)] (by decide)
      ("wss://read.example", policyReadableRelay) (by decide)).mpr (by decide),
   fun hmem =>
     by simpa [policyUnreadableRelay] using (req_send_policy Strategy.backward ⟨"sub:0", []⟩
       [("wss://read.example", policyReadableRelay),
        ("wss://noread.example", policyUnreadableRelay)] (by decide)
       ("wss://noread.example", policyUnreadableRelay) (by decide)).mp hmem⟩

/-! ### Trace shape lemmas for the setRelays phases -/

theorem finalizeLoop_trace_shape (url : String) (r : RelayState) (sids : List String) :
    ∀ op ∈ (finalizeLoop url r sids).2, ∃ s, op = Op.send url (Frame.close s) := by
  induction sids generalizing r with
  | nil => simp [finalizeLoop]
  | cons sid rest ih =>
      intro op hop
      simp only [finalizeLoop, List.mem_append] at hop
      rcases hop with h | h
      · refine ⟨sid, ?_⟩
        by_cases hm : sid ∈ r.activeSubIds
        · simpa using (by simpa [hm] using h : op ∈ [Op.send url (Frame.close sid)])
        · simp [hm] at h
      · exact ih _ op h

theorem finalizeReqOnRelay_trace_shape (subId : Option String) (r : RelayState) :
    ∀ op ∈ (finalizeReqOnRelay subId r).2, ∃ s, op = Op.send r.url (Frame.close s) :=
  finalizeLoop_trace_shape r.url r _

theorem dropUrl_trace_shape (old next : List (String × RelayState)) (url : String) :
    ∀ op ∈ (dropUrl old next url).2, op.isReqSend = false := by
  unfold dropUrl
  cases h : mapGet old url with
  | none => simp
  | some r =>
      intro op hop
      simp only [List.mem_append] at hop
      rcases hop with h' | h'
      · obtain ⟨s, rfl⟩ := finalizeReqOnRelay_trace_shape none r op h'
        rfl
      · simp only [List.mem_singleton] at h'
        subst h'
        rfl

theorem dropPhase_trace_shape (old next : List (String × RelayState)) (urls : List String) :
    ∀ op ∈ (dropPhase old next urls).2, op.isReqSend = false := by
  induction urls generalizing old next with
  | nil => simp [dropPhase]
  | cons url rest ih =>
      intro op hop
      rw [dropPhase_cons] at hop
      simp only [List.mem_append] at hop
      rcases hop with h | h
      · exact dropUrl_trace_shape old next url op h
      · exact ih _ _ op h

theorem startPhase_trace_shape (next : List (String × RelayState)) (urls : List String) :
    ∀ op ∈ (startPhase next urls).2, ∃ u, op = Op.start u := by
  induction urls generalizing next with
  | nil => simp [startPhase]
  | cons url rest ih =>
      intro op hop
      rw [startPhase_cons] at hop
      simp only [List.mem_append] at hop
      rcases hop with h | h
      · unfold startUrl at h
        cases hmg : mapGet next url with
        | none => simp [hmg] at h
        | some r =>
            simp only [hmg, List.mem_singleton] at h
            exact ⟨url, h⟩
      · exact ih _ op h

theorem ensureReqOnUrls_trace_shape (req : REQ) (next : List (String × RelayState))
    (urls : List String) :
    ∀ op ∈ (ensureReqOnUrls req next urls).2,
      ∃ u, op = Op.send u (Frame.req req.subId req.filters) := by
  induction urls generalizing next with
  | nil => simp [ensureReqOnUrls]
  | cons url rest ih =>
      intro op hop
      cases hmg : mapGet next url with
      | none =>
          rw [ensureReqOnUrls_cons_missing _ _ _ _ hmg] at hop
          exact ih _ op hop
      | some r =>
          rw [ensureReqOnUrls_cons_found _ _ _ _ _ hmg] at hop
          simp only [List.mem_append] at hop
          rcases hop with h | h
          · rw [ensureReqRelay_trace] at h
            by_cases hcond : r.read = true ∧ (false = true ∨ req.subId ∉ r.activeSubIds)
            · rw [if_pos hcond] at h
              simp only [List.mem_singleton] at h
              exact ⟨r.url, h⟩
            · rw [if_neg hcond] at h
              simp at h
          · exact ih _ op h

theorem rehydratePass_trace_shape (urls : List String) (next : List (String × RelayState))
    (reqs : List (String × REQ)) :
    ∀ op ∈ (rehydratePass urls next reqs).2, op.isCloseSend = false := by
  induction reqs generalizing next with
  | nil => simp [rehydratePass]
  | cons kv rest ih =>
      intro op hop
      rw [rehydratePass_cons] at hop
      simp only [List.mem_append] at hop
      rcases hop with h | h
      · obtain ⟨u, rfl⟩ := ensureReqOnUrls_trace_shape kv.2 next urls op h
        rfl
      · exact ih _ op h

/-! ### Claim C8 -/

theorem get_append_mem_left {α : Type} (A B : List α) (i : Nat) (hlt : i < A.length)
    (hi : i < (A ++ B).length) : (A ++ B).get ⟨i, hi⟩ ∈ A := by
  induction A generalizing i with
  | nil => simp at hlt
  | cons a A' ih =>
      cases i with
      | zero => simp
      | succ k =>
          have hk : k < A'.length := Nat.lt_of_succ_lt_succ hlt
          have hk' : k < (A' ++ B).length := by
            simpa [Nat.succ_lt_succ_iff] using hi
          exact List.mem_cons_of_mem _ (ih k hk hk')

theorem get_append_mem_right {α : Type} (A B : List α) (i : Nat) (hge : A.length ≤ i)
    (hi : i < (A ++ B).length) : (A ++ B).get ⟨i, hi⟩ ∈ B := by
  induction A generalizing i with
  | nil => exact List.get_mem _ _ _
  | cons a A' ih =>
      cases i with
      | zero => simp at hge
      | succ k =>
          have hk : A'.length ≤ k := Nat.le_of_succ_le_succ hge
          have hk' : k < (A' ++ B).length := by
            simpa [Nat.succ_lt_succ_iff] using hi
          exact ih k hk hk'

theorem close_before_req_of_partition (l A B : List Op) (hl : l = A ++ B) (i j : Nat)
    (hA : ∀ op ∈ A, op.isReqSend = false) (hB : ∀ op ∈ B, op.isCloseSend = false)
    (hi : i < l.length) (hj : j < l.length)
    (hc : (l.get ⟨i, hi⟩).isCloseSend = true)
    (hr : (l.get ⟨j, hj⟩).isReqSend = true) :
    i < j := by
  subst hl
  have hiA : i < A.length := by
    by_contra hge
    push_neg at hge
    rw [hB _ (get_append_mem_right A B i hge hi)] at hc
    exact Bool.false_ne_true hc
  have hjA : A.length ≤ j := by
    by_contra hlt
    push_neg at hlt
    rw [hA _ (get_append_mem_left A B j hlt hj)] at hr
    exact Bool.false_ne_true hr
  omega

/-- C8: in every pool transition every CLOSE frame in the client's own
send sequence (all of which belong to relays that stop being readable)
precedes every REQ frame (all of which go to relays that become
readable); nothing is claimed about cross-transport ordering, which the
trace does not model. -/
theorem closes_before_reqs (norm : String → String) (st : RxNostrState)
    (arg : SetRelaysArg) (i j : Nat)
    (hi : i < (setRelays norm st arg).2.length)
    (hj : j < (setRelays norm st arg).2.length)
    (hc : ((setRelays norm st arg).2.get ⟨i, hi⟩).isCloseSend = true)
    (hr : ((setRelays norm st arg).2.get ⟨j, hj⟩).isReqSend = true) :
    i < j := by
  have hsplit : (setRelays norm st arg).2 =
      (dropPhase st.relays (nextRelaysOf norm st arg) (urlsNoLongerReadOf norm st arg)).2 ++
        ((startPhase
            (dropPhase st.relays (nextRelaysOf norm st arg)
              (urlsNoLongerReadOf norm st arg)).1.2
            (urlsToBeReadOf norm st arg)).2 ++
          ((rehydratePass (urlsToBeReadOf norm st arg)
              (startPhase
                (dropPhase st.relays (nextRelaysOf norm st arg)
                  (urlsNoLongerReadOf norm st arg)).1.2
                (urlsToBeReadOf norm st arg)).1 st.activeReqs).2 ++
            ((rehydratePass (urlsToBeReadOf norm st arg)
                (rehydratePass (urlsToBeReadOf norm st arg)
                  (startPhase
                    (dropPhase st.relays (nextRelaysOf norm st arg)
                      (urlsNoLongerReadOf norm st arg)).1.2
                    (urlsToBeReadOf norm st arg)).1 st.activeReqs).1 st.activeReqs).2 ++
              (subtract (mapKeys st.relays) (mapKeys (nextRelaysOf norm st arg))).map
                Op.disposeWs))) := by
    simp [setRelays, List.append_assoc]
  refine close_before_req_of_partition _ _ _ hsplit i j ?_ ?_ hi hj hc hr
  · exact dropPhase_trace_shape _ _ _
  · intro op hop
    simp only [List.mem_append] at hop
    rcases hop with h | h | h | h
    · obtain ⟨u, rfl⟩ := startPhase_trace_shape _ _ op h
      rfl
    · exact rehydratePass_trace_shape _ _ _ op h
    · exact rehydratePass_trace_shape _ _ _ op h
    · obtain ⟨u, _, rfl⟩ := List.mem_map.mp h
      rfl

def orderingPrevRelay : RelayState :=
  { url := "wss://a.example", read := true, write := true, activeSubIds := ["sub:0"],
    wsState := ConnectionState.ongoing, wsDisposed := false }

def orderingFixture : RxNostrState :=
  { relays := [("wss://a.example", orderingPrevRelay)],
    activeReqs := [("sub:0", ⟨"sub:0", []⟩)] }

/-- Witness for C8: dropping the readable relay a (which holds an active
subId) while adding relay b produces the trace CLOSE, stop, start, REQ,
dispose; the CLOSE at index 0 precedes the REQ at index 3. -/
theorem closes_before_reqs_witness : (0 : Nat) < 3 :=
  closes_before_reqs sampleNorm orderingFixture
    (SetRelaysArg.list [RelayInput.url "wss://b.example"]) 0 3
    (by decide) (by decide) (by decide) (by decide)

/-! ### Lemmas toward C2 (forward REQ rehydration) -/

theorem reqSendsTo_append (a b : List Op) (url subId : String) :
    reqSendsTo (a ++ b) url subId = reqSendsTo a url subId ++ reqSendsTo b url subId := by
  simp [reqSendsTo, List.filterMap_append]

theorem reqSendsTo_nil_of_no_req (tr : List Op) (url subId : String)
    (h : ∀ op ∈ tr, op.isReqSend = false) : reqSendsTo tr url subId = [] := by
  induction tr with
  | nil => rfl
  | cons op rest ih =>
      have hop := h op (List.mem_cons_self _ _)
      have hrest := ih (fun o ho => h o (List.mem_cons_of_mem _ ho))
      cases op with
      | send u f =>
          cases f with
          | req s fs => simp [Op.isReqSend] at hop
          | close s => simp [reqSendsTo, List.filterMap_cons] at *; exact hrest
          | event ev => simp [reqSendsTo, List.filterMap_cons] at *; exact hrest
      | start u => simp [reqSendsTo, List.filterMap_cons] at *; exact hrest
      | stop u => simp [reqSendsTo, List.filterMap_cons] at *; exact hrest
      | disposeWs u => simp [reqSendsTo, List.filterMap_cons] at *; exact hrest

theorem reqSendsTo_single (u : String) (s : String) (fs : List Nostr.Filter)
    (url subId : String) :
    reqSendsTo [Op.send u (Frame.req s fs)] url subId =
      if u = url ∧ s = subId then [Frame.req s fs] else [] := by
  by_cases h : u = url ∧ s = subId <;> simp [reqSendsTo, List.filterMap_cons, h]

theorem mem_subtract {a b : List String} {x : String} :
    x ∈ subtract a b ↔ x ∈ a ∧ x ∉ b := by
  simp [subtract, List.mem_filter, List.elem_iff]

theorem hkeys_mapSet {m : List (String × RelayState)} {k : String} {v : RelayState}
    (hkeys : ∀ kv ∈ m, kv.2.url = kv.1) (hv : v.url = k) :
    ∀ kv ∈ mapSet m k v, kv.2.url = kv.1 := by
  intro kv hkv
  rcases mem_of_mem_mapSet hkv with rfl | h
  · exact hv
  · exact hkeys kv h

theorem mapGet_read_of_mem_readable {m : List (String × RelayState)}
    (hnd : (mapKeys m).Nodup) (hkeys : ∀ kv ∈ m, kv.2.url = kv.1)
    {url : String} (h : url ∈ getReadableUrls (m.map Prod.snd)) :
    ∃ r, mapGet m url = some r ∧ r.read = true := by
  simp only [getReadableUrls, List.mem_map, List.mem_filter] at h
  obtain ⟨rs, ⟨hmem, hread⟩, rfl⟩ := h
  obtain ⟨kv, hkv, hkveq⟩ := hmem
  subst hkveq
  have hk : kv = (kv.2.url, kv.2) := by
    have := hkeys kv hkv
    cases kv
    simp_all
  refine ⟨kv.2, ?_, hread⟩
  exact mapGet_eq_some_of_mem hnd (by rw [← hk]; exact hkv)

theorem nextFold_inv (prev : List (String × RelayState)) (rs : List Relay)
    (acc : List (String × RelayState))
    (h1 : (mapKeys acc).Nodup) (h2 : ∀ kv ∈ acc, kv.2.url = kv.1)
    (h3 : ∀ url r, mapGet acc url = some r →
      r.activeSubIds = (match mapGet prev url with
        | some p => p.activeSubIds
        | none => [])) :
    (mapKeys (rs.foldl (nextRelayStep prev) acc)).Nodup ∧
    (∀ kv ∈ rs.foldl (nextRelayStep prev) acc, kv.2.url = kv.1) ∧
    (∀ url r, mapGet (rs.foldl (nextRelayStep prev) acc) url = some r →
      r.activeSubIds = (match mapGet prev url with
        | some p => p.activeSubIds
        | none => [])) := by
  induction rs generalizing acc with
  | nil => exact ⟨h1, h2, h3⟩
  | cons relay rest ih =>
      rw [List.foldl_cons]
      apply ih
      · unfold nextRelayStep
        exact nodup_mapKeys_mapSet h1
      · unfold nextRelayStep
        exact hkeys_mapSet h2 rfl
      · unfold nextRelayStep
        intro url r hget
        by_cases hu : url = relay.url
        · subst hu
          rw [mapGet_mapSet_self] at hget
          obtain rfl := Option.some.inj hget
          rfl
        · rw [mapGet_mapSet_ne _ _ _ _ hu] at hget
          exact h3 url r hget

theorem getNextRelayState_inv (norm : String → String)
    (prev : List (String × RelayState)) (arg : SetRelaysArg) :
    (mapKeys (getNextRelayState norm prev arg)).Nodup ∧
    (∀ kv ∈ getNextRelayState norm prev arg, kv.2.url = kv.1) ∧
    (∀ url r, mapGet (getNextRelayState norm prev arg) url = some r →
      r.activeSubIds = (match mapGet prev url with
        | some p => p.activeSubIds
        | none => [])) := by
  apply nextFold_inv
  · simp [mapKeys]
  · simp
  · intro url r h
    simp [mapGet] at h

theorem dropUrl_next_mapGet_ne (old next : List (String × RelayState)) (u url : String)
    (h : url ≠ u) : mapGet (dropUrl old next u).1.2 url = mapGet next url := by
  unfold dropUrl
  cases hmg : mapGet old u with
  | none => rfl
  | some r =>
      dsimp only
      cases hmg2 : mapGet next u with
      | none => rfl
      | some n => exact mapGet_mapSet_ne _ _ _ _ h

theorem dropPhase_next_mapGet_not_mem (old next : List (String × RelayState))
    (urls : List String) (url : String) (h : url ∉ urls) :
    mapGet (dropPhase old next urls).1.2 url = mapGet next url := by
  induction urls generalizing old next with
  | nil => rfl
  | cons u rest ih =>
      have hne : url ≠ u := fun he => h (he ▸ List.mem_cons_self u rest)
      have hrest : url ∉ rest := fun hm => h (List.mem_cons_of_mem _ hm)
      rw [dropPhase_cons]
      dsimp only
      rw [ih _ _ hrest, dropUrl_next_mapGet_ne _ _ _ _ hne]

theorem dropUrl_next_hkeys (old next : List (String × RelayState)) (u : String)
    (hkeys : ∀ kv ∈ next, kv.2.url = kv.1) :
    ∀ kv ∈ (dropUrl old next u).1.2, kv.2.url = kv.1 := by
  unfold dropUrl
  cases hmg : mapGet old u with
  | none => exact hkeys
  | some r =>
      dsimp only
      cases hmg2 : mapGet next u with
      | none => exact hkeys
      | some n =>
          apply hkeys_mapSet hkeys
          have hnu : n.url = u := hkeys _ (mem_of_mapGet_eq_some hmg2)
          simpa using hnu

theorem dropPhase_next_hkeys (old next : List (String × RelayState)) (urls : List String)
    (hkeys : ∀ kv ∈ next, kv.2.url = kv.1) :
    ∀ kv ∈ (dropPhase old next urls).1.2, kv.2.url = kv.1 := by
  induction urls generalizing old next with
  | nil => exact hkeys
  | cons u rest ih =>
      rw [dropPhase_cons]
      dsimp only
      exact ih _ _ (dropUrl_next_hkeys old next u hkeys)

theorem startUrl_mapGet (next : List (String × RelayState)) (u url : String) :
    mapGet (startUrl next u).1 url =
      if url = u
      then (mapGet next url).map (fun r => { r with wsState := ConnectionState.starting })
      else mapGet next url := by
  unfold startUrl
  cases hmg : mapGet next u with
  | none =>
      by_cases hu : url = u
      · subst hu
        simp [hmg]
      · simp [hu]
  | some r =>
      by_cases hu : url = u
      · subst hu
        simp [mapGet_mapSet_self, hmg]
      · simp [hu, mapGet_mapSet_ne _ _ _ _ hu]

theorem startPhase_mapGet_core (next : List (String × RelayState)) (urls : List String)
    (url : String) (r : RelayState) (h : mapGet next url = some r) :
    ∃ r', mapGet (startPhase next urls).1 url = some r' ∧
      r'.url = r.url ∧ r'.read = r.read ∧ r'.activeSubIds = r.activeSubIds := by
  induction urls generalizing next r with
  | nil => exact ⟨r, h, rfl, rfl, rfl⟩
  | cons u rest ih =>
      rw [startPhase_cons]
      dsimp only
      by_cases hu : url = u
      · subst hu
        have hstep : mapGet (startUrl next url).1 url =
            some { r with wsState := ConnectionState.starting } := by
          rw [startUrl_mapGet]
          simp [h]
        obtain ⟨r', h', hurl, hread, hacts⟩ := ih _ _ hstep
        exact ⟨r', h', hurl, hread, hacts⟩
      · have hstep : mapGet (startUrl next u).1 url = some r := by
          rw [startUrl_mapGet]
          simp [hu, h]
        exact ih _ _ hstep

theorem startUrl_hkeys (next : List (String × RelayState)) (u : String)
    (hkeys : ∀ kv ∈ next, kv.2.url = kv.1) :
    ∀ kv ∈ (startUrl next u).1, kv.2.url = kv.1 := by
  unfold startUrl
  cases hmg : mapGet next u with
  | none => exact hkeys
  | some r =>
      apply hkeys_mapSet hkeys
      have hru : r.url = u := hkeys _ (mem_of_mapGet_eq_some hmg)
      simpa using hru

theorem startPhase_hkeys (next : List (String × RelayState)) (urls : List String)
    (hkeys : ∀ kv ∈ next, kv.2.url = kv.1) :
    ∀ kv ∈ (startPhase next urls).1, kv.2.url = kv.1 := by
  induction urls generalizing next with
  | nil => exact hkeys
  | cons u rest ih =>
      rw [startPhase_cons]
      dsimp only
      exact ih _ (startUrl_hkeys next u hkeys)

theorem ensureReqOnUrls_hkeys (req : REQ) (next : List (String × RelayState))
    (urls : List String) (hkeys : ∀ kv ∈ next, kv.2.url = kv.1) :
    ∀ kv ∈ (ensureReqOnUrls req next urls).1, kv.2.url = kv.1 := by
  induction urls generalizing next with
  | nil => exact hkeys
  | cons u rest ih =>
      cases hmg : mapGet next u with
      | none =>
          rw [ensureReqOnUrls_cons_missing _ _ _ _ hmg]
          exact ih _ hkeys
      | some r =>
          rw [ensureReqOnUrls_cons_found _ _ _ _ _ hmg]
          dsimp only
          apply ih
          apply hkeys_mapSet hkeys
          rw [ensureReqRelay_state]
          have hru : r.url = u := hkeys _ (mem_of_mapGet_eq_some hmg)
          split <;> simpa using hru

theorem rehydratePass_hkeys (urls : List String) (next : List (String × RelayState))
    (reqs : List (String × REQ)) (hkeys : ∀ kv ∈ next, kv.2.url = kv.1) :
    ∀ kv ∈ (rehydratePass urls next reqs).1, kv.2.url = kv.1 := by
  induction reqs generalizing next with
  | nil => exact hkeys
  | cons kv rest ih =>
      rw [rehydratePass_cons]
      dsimp only
      exact ih _ (ensureReqOnUrls_hkeys _ _ _ hkeys)

theorem ensureReqOnUrls_spec (req : REQ) (urls : List String)
    (next : List (String × RelayState)) (url : String) (r : RelayState)
    (hkeys : ∀ kv ∈ next, kv.2.url = kv.1)
    (h : mapGet next url = some r) :
    ∃ r', mapGet (ensureReqOnUrls req next urls).1 url = some r' ∧
      r'.url = r.url ∧ r'.read = r.read ∧
      (∀ s, s ≠ req.subId → (s ∈ r'.activeSubIds ↔ s ∈ r.activeSubIds)) ∧
      (req.subId ∈ r'.activeSubIds ↔
        (req.subId ∈ r.activeSubIds ∨ (url ∈ urls ∧ r.read = true))) ∧
      reqSendsTo (ensureReqOnUrls req next urls).2 url req.subId =
        (if url ∈ urls ∧ r.read = true ∧ req.subId ∉ r.activeSubIds
         then [Frame.req req.subId req.filters] else []) ∧
      (∀ s, s ≠ req.subId → reqSendsTo (ensureReqOnUrls req next urls).2 url s = []) := by
  induction urls generalizing next r with
  | nil =>
      refine ⟨r, h, rfl, rfl, fun s _ => Iff.rfl, by simp, ?_, fun s _ => ?_⟩
      · simp [ensureReqOnUrls, reqSendsTo]
      · simp [ensureReqOnUrls, reqSendsTo]
  | cons u rest ih =>
      have hru : r.url = url := hkeys _ (mem_of_mapGet_eq_some h)
      by_cases hu : u = url
      · subst hu
        rw [ensureReqOnUrls_cons_found _ _ _ _ _ h]
        dsimp only
        by_cases hread : r.read = true
        · by_cases hmem : req.subId ∈ r.activeSubIds
          · -- already active: ensureReqRelay skips
            have hcond : ¬(r.read = true ∧ (false = true ∨ req.subId ∉ r.activeSubIds)) := by
              rintro ⟨_, hor⟩
              rcases hor with hf | hnm
              · exact Bool.false_ne_true hf
              · exact hnm hmem
            have hstate : (ensureReqRelay req false r).1 = r := by
              rw [ensureReqRelay_state, if_neg hcond]
            have htrace : (ensureReqRelay req false r).2 = [] := by
              rw [ensureReqRelay_trace, if_neg hcond]
            rw [hstate, htrace]
            have hentry : mapGet (mapSet next u r) u = some r := mapGet_mapSet_self _ _ _
            have hkeys1 : ∀ kv ∈ mapSet next u r, kv.2.url = kv.1 := hkeys_mapSet hkeys hru
            obtain ⟨r', hget', hurl', hread', hmemS', hmemId', htr', htrS'⟩ :=
              ih _ _ hkeys1 hentry
            refine ⟨r', hget', hurl', hread', hmemS', ?_, ?_, ?_⟩
            · rw [hmemId']
              simp [hmem]
            · rw [List.nil_append, htr']
              simp [hmem]
            · intro s hs
              rw [List.nil_append]
              exact htrS' s hs
          · -- fresh subId on a readable relay: the REQ goes out here
            have hcond : r.read = true ∧ (false = true ∨ req.subId ∉ r.activeSubIds) :=
              ⟨hread, Or.inr hmem⟩
            have hstate : (ensureReqRelay req false r).1 =
                { r with activeSubIds := setAdd r.activeSubIds req.subId } := by
              rw [ensureReqRelay_state, if_pos hcond]
            have htrace : (ensureReqRelay req false r).2 =
                [Op.send r.url (Frame.req req.subId req.filters)] := by
              rw [ensureReqRelay_trace, if_pos hcond]
            rw [hstate, htrace]
            have hentry : mapGet
                (mapSet next u { r with activeSubIds := setAdd r.activeSubIds req.subId }) u =
                some { r with activeSubIds := setAdd r.activeSubIds req.subId } :=
              mapGet_mapSet_self _ _ _
            have hkeys1 : ∀ kv ∈
                mapSet next u { r with activeSubIds := setAdd r.activeSubIds req.subId },
                kv.2.url = kv.1 := hkeys_mapSet hkeys hru
            obtain ⟨r', hget', hurl', hread', hmemS', hmemId', htr', htrS'⟩ :=
              ih _ _ hkeys1 hentry
            have hsubIn : req.subId ∈ setAdd r.activeSubIds req.subId := by
              rw [mem_setAdd]
              exact Or.inr rfl
            refine ⟨r', hget', hurl', hread', ?_, ?_, ?_, ?_⟩
            · intro s hs
              rw [hmemS' s hs]
              show s ∈ setAdd r.activeSubIds req.subId ↔ s ∈ r.activeSubIds
              rw [mem_setAdd]
              simp [hs]
            · rw [hmemId']
              constructor
              · intro _
                exact Or.inr ⟨List.mem_cons_self _ _, hread⟩
              · intro _
                exact Or.inl hsubIn
            · rw [reqSendsTo_append, reqSendsTo_single, if_pos ⟨hru, rfl⟩, htr']
              have hnot : ¬(u ∈ rest ∧
                  ({ r with activeSubIds := setAdd r.activeSubIds req.subId } :
                    RelayState).read = true ∧
                  req.subId ∉ ({ r with activeSubIds := setAdd r.activeSubIds req.subId } :
                    RelayState).activeSubIds) := by
                rintro ⟨_, _, hnm⟩
                exact hnm hsubIn
              rw [if_neg hnot, if_pos ⟨List.mem_cons_self _ _, hread, hmem⟩,
                List.append_nil]
            · intro s hs
              rw [reqSendsTo_append, reqSendsTo_single, htrS' s hs]
              have hcnd : ¬(r.url = u ∧ req.subId = s) := by
                rintro ⟨_, hss⟩
                exact hs hss.symm
              rw [if_neg hcnd, List.append_nil]
        · -- not readable: skipped, and the readable condition is false
          have hcond : ¬(r.read = true ∧ (false = true ∨ req.subId ∉ r.activeSubIds)) := by
            rintro ⟨hr, _⟩
            exact hread hr
          have hstate : (ensureReqRelay req false r).1 = r := by
            rw [ensureReqRelay_state, if_neg hcond]
          have htrace : (ensureReqRelay req false r).2 = [] := by
            rw [ensureReqRelay_trace, if_neg hcond]
          rw [hstate, htrace]
          have hentry : mapGet (mapSet next u r) u = some r := mapGet_mapSet_self _ _ _
          have hkeys1 : ∀ kv ∈ mapSet next u r, kv.2.url = kv.1 := hkeys_mapSet hkeys hru
          obtain ⟨r', hget', hurl', hread', hmemS', hmemId', htr', htrS'⟩ :=
            ih _ _ hkeys1 hentry
          refine ⟨r', hget', hurl', hread', hmemS', ?_, ?_, ?_⟩
          · rw [hmemId']
            simp [hread]
          · rw [List.nil_append, htr']
            simp [hread]
          · intro s hs
            rw [List.nil_append]
            exact htrS' s hs
      · -- a different url is processed first
        have hne : url ≠ u := Ne.symm hu
        cases hmg : mapGet next u with
        | none =>
            rw [ensureReqOnUrls_cons_missing _ _ _ _ hmg]
            obtain ⟨r', hget', hurl', hread', hmemS', hmemId', htr', htrS'⟩ :=
              ih _ _ hkeys h
            refine ⟨r', hget', hurl', hread', hmemS', ?_, ?_, htrS'⟩
            · rw [hmemId']
              simp [List.mem_cons, hne]
            · rw [htr']
              simp [List.mem_cons, hne]
        | some ru =>
            rw [ensureReqOnUrls_cons_found _ _ _ _ _ hmg]
            dsimp only
            have hruu : ru.url = u := hkeys _ (mem_of_mapGet_eq_some hmg)
            have hentry : mapGet (mapSet next u (ensureReqRelay req false ru).1) url =
                some r := by
              rw [mapGet_mapSet_ne _ _ _ _ hne]
              exact h
            have hkeys1 : ∀ kv ∈ mapSet next u (ensureReqRelay req false ru).1,
                kv.2.url = kv.1 := by
              apply hkeys_mapSet hkeys
              rw [ensureReqRelay_state]
              split <;> simpa using hruu
            obtain ⟨r', hget', hurl', hread', hmemS', hmemId', htr', htrS'⟩ :=
              ih _ _ hkeys1 hentry
            have hheads : ∀ s, reqSendsTo (ensureReqRelay req false ru).2 url s = [] := by
              intro s
              rw [ensureReqRelay_trace]
              split
              · rw [reqSendsTo_single]
                have : ¬(ru.url = url ∧ req.subId = s) := by
                  rintro ⟨he, _⟩
                  exact hne (hruu ▸ he).symm
                rw [if_neg this]
              · rfl
            refine ⟨r', hget', hurl', hread', hmemS', ?_, ?_, ?_⟩
            · rw [hmemId']
              simp [List.mem_cons, hne]
            · rw [reqSendsTo_append, hheads, htr', List.nil_append]
              simp [List.mem_cons, hne]
            · intro s hs
              rw [reqSendsTo_append, hheads, htrS' s hs, List.nil_append]

theorem rehydratePass_no_resend (urls : List String) (next : List (String × RelayState))
    (reqs : List (String × REQ)) (url : String) (r : RelayState) (subId : String)
    (hkeys : ∀ kv ∈ next, kv.2.url = kv.1)
    (h : mapGet next url = some r) (hmem : subId ∈ r.activeSubIds) :
    reqSendsTo (rehydratePass urls next reqs).2 url subId = [] ∧
    ∃ r', mapGet (rehydratePass urls next reqs).1 url = some r' ∧
      r'.read = r.read ∧ subId ∈ r'.activeSubIds := by
  induction reqs generalizing next r with
  | nil => exact ⟨by simp [rehydratePass, reqSendsTo], r, h, rfl, hmem⟩
  | cons kv rest ih =>
      rw [rehydratePass_cons]
      dsimp only
      obtain ⟨r1, hget1, hurl1, hread1, hmemS1, hmemId1, htr1, htrS1⟩ :=
        ensureReqOnUrls_spec kv.2 urls next url r hkeys h
      have hkeys1 := ensureReqOnUrls_hkeys kv.2 next urls hkeys
      have hmem1 : subId ∈ r1.activeSubIds := by
        by_cases hs : subId = kv.2.subId
        · rw [hs, hmemId1]
          exact Or.inl (hs ▸ hmem)
        · rw [hmemS1 subId hs]
          exact hmem
      obtain ⟨htr2, r', hget', hread', hmem'⟩ := ih _ _ hkeys1 hget1 hmem1
      refine ⟨?_, r', hget', hread'.trans hread1, hmem'⟩
      rw [reqSendsTo_append, htr2, List.append_nil]
      by_cases hs : subId = kv.2.subId
      · rw [hs] at hmem ⊢
        rw [htr1]
        have hnot : ¬(url ∈ urls ∧ r.read = true ∧ kv.2.subId ∉ r.activeSubIds) := by
          rintro ⟨_, _, hn⟩
          exact hn hmem
        rw [if_neg hnot]
      · exact htrS1 subId hs

theorem rehydratePass_sends_once (urls : List String) (next : List (String × RelayState))
    (reqs : List (String × REQ)) (url : String) (r : RelayState) (subId : String) (req : REQ)
    (hkeys : ∀ kv ∈ next, kv.2.url = kv.1)
    (h : mapGet next url = some r) (hread : r.read = true) (hurl : url ∈ urls)
    (hfresh : subId ∉ r.activeSubIds)
    (hkv : ∀ kv ∈ reqs, kv.2.subId = kv.1)
    (hget : mapGet reqs subId = some req) :
    reqSendsTo (rehydratePass urls next reqs).2 url subId = [Frame.req subId req.filters] ∧
    ∃ r', mapGet (rehydratePass urls next reqs).1 url = some r' ∧
      subId ∈ r'.activeSubIds := by
  induction reqs generalizing next r with
  | nil => simp [mapGet] at hget
  | cons kv rest ih =>
      rw [rehydratePass_cons]
      dsimp only
      obtain ⟨r1, hget1, hurl1, hread1, hmemS1, hmemId1, htr1, htrS1⟩ :=
        ensureReqOnUrls_spec kv.2 urls next url r hkeys h
      have hkeys1 := ensureReqOnUrls_hkeys kv.2 next urls hkeys
      have hkvk : kv.2.subId = kv.1 := hkv kv (List.mem_cons_self _ _)
      by_cases hk : kv.1 = subId
      · have hq : kv.2 = req := by
          simp only [mapGet, if_pos hk] at hget
          exact Option.some.inj hget
        have hsub : kv.2.subId = subId := hkvk.trans hk
        rw [hsub] at hmemId1 htr1
        have hmem1 : subId ∈ r1.activeSubIds := hmemId1.mpr (Or.inr ⟨hurl, hread⟩)
        obtain ⟨htr2, r', hget', hread', hmem'⟩ :=
          rehydratePass_no_resend urls _ rest url r1 subId hkeys1 hget1 hmem1
        refine ⟨?_, r', hget', hmem'⟩
        rw [reqSendsTo_append, htr2, List.append_nil, htr1,
          if_pos ⟨hurl, hread, hfresh⟩, hq]
      · have hksub : kv.2.subId ≠ subId := hkvk.symm ▸ hk
        have hget2 : mapGet rest subId = some req := by
          simpa only [mapGet, if_neg hk] using hget
        have hread1' : r1.read = true := hread1.trans hread
        have hfresh1 : subId ∉ r1.activeSubIds := by
          rw [hmemS1 subId (fun he => hksub he.symm)]
          exact hfresh
        obtain ⟨htr2, r', hget', hmem'⟩ :=
          ih _ _ hkeys1 hget1 hread1' hfresh1 (fun p hp => hkv p (List.mem_cons_of_mem _ hp))
            hget2
        refine ⟨?_, r', hget', hmem'⟩
        rw [reqSendsTo_append, htrS1 subId (fun he => hksub he.symm), htr2,
          List.nil_append]

/-! ### Claim C2 -/

/-- C2: during a pool transition, every relay that becomes readable and
does not already hold the subscription receives the most recent registered
REQ for that subId exactly once (the trace contains exactly one matching
REQ frame for that relay, despite the duplicated rehydration loop: the
second pass is suppressed by the activeSubIds guard of ensureReq), and
afterwards the subId is in that relay's activeSubIds. switchRelays and
addRelay delegate to setRelays, which this theorem is about. -/
theorem forward_req_rehydrated_once (norm : String → String) (st : RxNostrState)
    (arg : SetRelaysArg) (url subId : String) (req : REQ)
    (hwf : WF st)
    (hget : mapGet st.activeReqs subId = some req)
    (hurl : url ∈ urlsToBeReadOf norm st arg)
    (hfresh : mapGet st.relays url = none ∨
      ∃ p, mapGet st.relays url = some p ∧ subId ∉ p.activeSubIds) :
    reqSendsTo (setRelays norm st arg).2 url subId = [Frame.req subId req.filters] ∧
    ∃ r', mapGet (setRelays norm st arg).1.relays url = some r' ∧
      subId ∈ r'.activeSubIds := by
  obtain ⟨hndN, hkeysN, hactN⟩ := getNextRelayState_inv norm st.relays arg
  have hurl' := mem_subtract.mp hurl
  obtain ⟨r0, hr0get, hr0read⟩ := mapGet_read_of_mem_readable hndN hkeysN hurl'.1
  have hfresh0 : subId ∉ r0.activeSubIds := by
    have hacts := hactN url r0 hr0get
    rcases hfresh with hnone | ⟨p, hp, hnp⟩
    · rw [hnone] at hacts
      rw [hacts]
      simp
    · rw [hp] at hacts
      rw [hacts]
      exact hnp
  have hnotdrop : url ∉ urlsNoLongerReadOf norm st arg := by
    intro hmem
    exact (mem_subtract.mp hmem).2 hurl'.1
  have hdrop : mapGet (dropPhase st.relays (nextRelaysOf norm st arg)
      (urlsNoLongerReadOf norm st arg)).1.2 url = some r0 := by
    rw [dropPhase_next_mapGet_not_mem _ _ _ _ hnotdrop]
    exact hr0get
  have hkeysD := dropPhase_next_hkeys st.relays (nextRelaysOf norm st arg)
    (urlsNoLongerReadOf norm st arg) hkeysN
  obtain ⟨r1, hs1, hs1url, hs1read, hs1acts⟩ :=
    startPhase_mapGet_core _ (urlsToBeReadOf norm st arg) url r0 hdrop
  have hkeysS := startPhase_hkeys _ (urlsToBeReadOf norm st arg) hkeysD
  have hkvreqs : ∀ kv ∈ st.activeReqs, kv.2.subId = kv.1 := hwf.2.2.2
  have hr1read : r1.read = true := hs1read.trans hr0read
  have hfresh1 : subId ∉ r1.activeSubIds := by
    rw [hs1acts]
    exact hfresh0
  obtain ⟨htrP1, r2, hg2, hm2⟩ :=
    rehydratePass_sends_once (urlsToBeReadOf norm st arg) _ st.activeReqs url r1 subId req
      hkeysS hs1 hr1read hurl hfresh1 hkvreqs hget
  have hkeysP1 := rehydratePass_hkeys (urlsToBeReadOf norm st arg) _ st.activeReqs hkeysS
  obtain ⟨htrP2, r3, hg3, hr3read, hm3⟩ :=
    rehydratePass_no_resend (urlsToBeReadOf norm st arg) _ st.activeReqs url r2 subId
      hkeysP1 hg2 hm2
  have hsplit : (setRelays norm st arg).2 =
      (dropPhase st.relays (nextRelaysOf norm st arg) (urlsNoLongerReadOf norm st arg)).2 ++
        ((startPhase
            (dropPhase st.relays (nextRelaysOf norm st arg)
              (urlsNoLongerReadOf norm st arg)).1.2
            (urlsToBeReadOf norm st arg)).2 ++
          ((rehydratePass (urlsToBeReadOf norm st arg)
              (startPhase
                (dropPhase st.relays (nextRelaysOf norm st arg)
                  (urlsNoLongerReadOf norm st arg)).1.2
                (urlsToBeReadOf norm st arg)).1 st.activeReqs).2 ++
            ((rehydratePass (urlsToBeReadOf norm st arg)
                (rehydratePass (urlsToBeReadOf norm st arg)
                  (startPhase
                    (dropPhase st.relays (nextRelaysOf norm st arg)
                      (urlsNoLongerReadOf norm st arg)).1.2
                    (urlsToBeReadOf norm st arg)).1 st.activeReqs).1 st.activeReqs).2 ++
              (subtract (mapKeys st.relays) (mapKeys (nextRelaysOf norm st arg))).map
                Op.disposeWs))) := by
    simp [setRelays, List.append_assoc]
  constructor
  · rw [hsplit]
    simp only [reqSendsTo_append]
    rw [htrP1, htrP2]
    rw [reqSendsTo_nil_of_no_req _ _ _ (dropPhase_trace_shape _ _ _)]
    rw [reqSendsTo_nil_of_no_req _ _ _ (fun op hop => by
      obtain ⟨u, rfl⟩ := startPhase_trace_shape _ _ op hop
      rfl)]
    rw [reqSendsTo_nil_of_no_req _ _ _ (fun op hop => by
      obtain ⟨u, _, rfl⟩ := List.mem_map.mp hop
      rfl)]
    simp
  · have hst : (setRelays norm st arg).1.relays =
        (rehydratePass (urlsToBeReadOf norm st arg)
          (rehydratePass (urlsToBeReadOf norm st arg)
            (startPhase
              (dropPhase st.relays (nextRelaysOf norm st arg)
                (urlsNoLongerReadOf norm st arg)).1.2
              (urlsToBeReadOf norm st arg)).1 st.activeReqs).1 st.activeReqs).1 := by
      simp [setRelays]
    rw [hst]
    exact ⟨r3, hg3, hm3⟩

def rehydrateFixture : RxNostrState :=
  { relays := [("wss://a.example",
      { url := "wss://a.example", read := true, write := true, activeSubIds := ["sub:0"],
        wsState := ConnectionState.ongoing, wsDisposed := false })],
    activeReqs := [("sub:0", ⟨"sub:0", []⟩)] }

def rehydrateArg : SetRelaysArg :=
  SetRelaysArg.list
    [RelayInput.relay ⟨"wss://a.example", true, true⟩, RelayInput.url "wss://b.example"]

/-- Witness for C2: keeping relay a and adding relay b while a forward REQ
for sub:0 is registered sends exactly one copy of the REQ to b and records
the subId there. -/
theorem forward_req_rehydrated_once_witness :
    reqSendsTo (setRelays sampleNorm rehydrateFixture rehydrateArg).2
        "wss://b.example" "sub:0" = [Frame.req "sub:0" []] ∧
    ∃ r', mapGet (setRelays sampleNorm rehydrateFixture rehydrateArg).1.relays
        "wss://b.example" = some r' ∧ "sub:0" ∈ r'.activeSubIds :=
  forward_req_rehydrated_once sampleNorm rehydrateFixture rehydrateArg
    "wss://b.example" "sub:0" ⟨"sub:0", []⟩ (by decide) (by decide) (by decide)
    (Or.inl (by decide))

end RxNostrModel
